import Mathlib

/-
Verification of the Image-Studio editor core against its specification.

The definitions below are a shallow embedding of the TypeScript source:
  - src/unnamed/part_003            (types: ProcessOptions, CropRect, OutputFormat)
  - src/components/Editor.tsx       (history, undo/redo, pointer interaction, zoom)
  - src/services/image.worker.ts    (compositing geometry and encoder dispatch)
  - src/unnamed/part_004            (processImage: same geometry and dispatch)
JavaScript numbers are modelled as rationals with exact arithmetic; Math.floor
is Int.floor, Math.round is floor (x + 1/2), Math.min / Math.max are min / max.
-/

namespace ImageStudio

/-- Output format enum, from src/unnamed/part_003: OutputFormat is one of the
four mime types image/png, image/jpeg, image/webp, image/avif. -/
inductive OutputFormat
  | png
  | jpeg
  | webp
  | avif
deriving DecidableEq, Repr

/-- Fit mode, from the ProcessOptions type: cover, contain or fill. -/
inductive FitMode
  | cover
  | contain
  | fill
deriving DecidableEq, Repr

/-- Mask mode, from the ProcessOptions type: none, circle or square. -/
inductive MaskMode
  | noMask
  | circle
  | square
deriving DecidableEq, Repr

/-- Crop rectangle, from src/unnamed/part_003: x, y, width, height, all
JavaScript numbers. -/
structure CropRect where
  x : ℚ
  y : ℚ
  width : ℚ
  height : ℚ
deriving DecidableEq, Repr

/-- A 2d point used for the optional offset and the drag anchors. -/
structure Point2 where
  x : ℚ
  y : ℚ
deriving DecidableEq, Repr

/-- ProcessOptions, from src/unnamed/part_003: width and height are optional
numbers, quality a number in [0,1], plus format, fit, mask, rotation, an
optional crop rectangle and an optional offset. -/
structure ProcessOptions where
  width : Option ℚ
  height : Option ℚ
  quality : ℚ
  format : OutputFormat
  fit : FitMode
  mask : MaskMode
  rotation : ℚ
  crop : Option CropRect
  offset : Option Point2
deriving DecidableEq, Repr

/-- The viewport transform state of the Editor component:
useState with initial value x 0, y 0, scale 1. -/
structure ViewTransform where
  x : ℚ
  y : ℚ
  scale : ℚ
deriving DecidableEq, Repr

/-- The drag tool mode of the Editor component: view (pan) or image (move). -/
inductive DragMode
  | view
  | image
deriving DecidableEq, Repr

/-- The relevant reactive state of the Editor component
(src/components/Editor.tsx): current options, the history list with its
index, the viewport transform, the drag flags and the crop selection, plus
the two mutable refs dragStart and startOffset. -/
structure EditorState where
  options : ProcessOptions
  history : List ProcessOptions
  historyIndex : ℕ
  transform : ViewTransform
  isDragging : Bool
  dragMode : DragMode
  isCropping : Bool
  cropSelection : Option CropRect
  dragStart : Point2
  startOffset : Point2
deriving DecidableEq, Repr

/-- Initial options factory getInitialOptions of Editor.tsx, with the image
dimensions abstracted: width and height set, quality 0.9, format from the
image, fit cover, mask none, rotation 0, no crop, offset (0,0).  mkOpts
varies only the quality so that distinct concrete option values are easy to
produce in examples. -/
def mkOpts (q : ℚ) : ProcessOptions :=
  { width := some 800
    height := some 600
    quality := q
    format := OutputFormat.png
    fit := FitMode.cover
    mask := MaskMode.noMask
    rotation := 0
    crop := none
    offset := some ⟨0, 0⟩ }

/-- The initial editor state of src/components/Editor.tsx: options and a
one-entry history seeded with the initial options, index 0, transform
(0,0,1), no drag in progress, view mode, no crop. -/
def initEditor (orig : ProcessOptions) : EditorState :=
  { options := orig
    history := [orig]
    historyIndex := 0
    transform := ⟨0, 0, 1⟩
    isDragging := false
    dragMode := DragMode.view
    isCropping := false
    cropSelection := none
    dragStart := ⟨0, 0⟩
    startOffset := ⟨0, 0⟩ }

/-- pushHistory of src/components/Editor.tsx lines 56-65: slice the history
up to and including the current index, append the new options, drop the
oldest entry when the length exceeds 20, and set the index to the new last
entry. -/
def pushHistory (s : EditorState) (newOptions : ProcessOptions) : EditorState :=
  let newHistory := s.history.take (s.historyIndex + 1) ++ [newOptions]
  let newHistory := if 20 < newHistory.length then newHistory.drop 1 else newHistory
  { s with
    history := newHistory
    historyIndex := newHistory.length - 1
    options := newOptions }

/-- handleUndo of Editor.tsx lines 67-73: when the index is positive, step
the index back by one and load that entry into the current options.  In
every state the component reaches, the index is inside the history, so the
out-of-bounds fallback branch (JavaScript would read undefined) never
fires; it keeps the options unchanged here. -/
def handleUndo (s : EditorState) : EditorState :=
  if 0 < s.historyIndex then
    match s.history.get? (s.historyIndex - 1) with
    | some prev => { s with historyIndex := s.historyIndex - 1, options := prev }
    | none => { s with historyIndex := s.historyIndex - 1 }
  else s

/-- handleRedo of Editor.tsx lines 75-81: when the index is before the last
entry, step it forward by one and load that entry into the options.  The
same in-bounds remark as for handleUndo applies. -/
def handleRedo (s : EditorState) : EditorState :=
  if s.historyIndex < s.history.length - 1 then
    match s.history.get? (s.historyIndex + 1) with
    | some next => { s with historyIndex := s.historyIndex + 1, options := next }
    | none => { s with historyIndex := s.historyIndex + 1 }
  else s

/-- The plain setOptions state update used by updateOption and the
interaction handlers: replace the working options without touching the
history. -/
def setOptions (s : EditorState) (o : ProcessOptions) : EditorState :=
  { s with options := o }

/-- commitOptionChange of Editor.tsx lines 194-198: push the current options
only when their JSON serialisation differs from the entry at the current
index.  Serialised equality of two ProcessOptions values coincides with
structural equality, and an out-of-bounds index (stringified undefined)
always differs, hence pushes. -/
def commitOptionChange (s : EditorState) : EditorState :=
  if s.history.get? s.historyIndex ≠ some s.options then pushHistory s s.options
  else s

/-- handleWheel of Editor.tsx lines 202-207: the scale delta is
-deltaY * 0.001, and the new scale is min (max 0.1 (scale + delta)) 5. -/
def handleWheel (s : EditorState) (deltaY : ℚ) : EditorState :=
  let scaleAmount := -deltaY * (1 / 1000)
  let newScale := min (max (1 / 10) (s.transform.scale + scaleAmount)) 5
  { s with transform := { s.transform with scale := newScale } }

/-- The zoom-in button of Editor.tsx line 445: scale becomes scale + 0.1,
with no clamp. -/
def handleZoomIn (s : EditorState) : EditorState :=
  { s with transform := { s.transform with scale := s.transform.scale + 1 / 10 } }

/-- The zoom-out button of Editor.tsx line 448: scale becomes
max 0.1 (scale - 0.1). -/
def handleZoomOut (s : EditorState) : EditorState :=
  { s with transform :=
      { s.transform with scale := max (1 / 10) (s.transform.scale - 1 / 10) } }

/-- One zoom interaction: a wheel event with some deltaY, or a press of the
zoom-in or zoom-out overlay button. -/
inductive ZoomOp
  | wheel (deltaY : ℚ)
  | zoomIn
  | zoomOut

/-- Dispatch of a zoom interaction to the matching Editor.tsx handler. -/
def applyZoom (s : EditorState) (op : ZoomOp) : EditorState :=
  match op with
  | ZoomOp.wheel d => handleWheel s d
  | ZoomOp.zoomIn => handleZoomIn s
  | ZoomOp.zoomOut => handleZoomOut s

/-- handleMouseDown of Editor.tsx lines 209-227.  clientX / clientY are the
pointer position; rectLeft / rectTop the container bounding rectangle
origin.  Crop mode records the container-relative anchor and opens a
zero-size selection; image mode records the raw pointer anchor and the
current offset (or (0,0) when absent); view mode records pointer minus pan. -/
def handleMouseDown (s : EditorState) (clientX clientY rectLeft rectTop : ℚ) :
    EditorState :=
  let x := clientX - rectLeft
  let y := clientY - rectTop
  let s := { s with isDragging := true }
  if s.isCropping then
    { s with dragStart := ⟨x, y⟩, cropSelection := some ⟨x, y, 0, 0⟩ }
  else if s.dragMode = DragMode.image then
    { s with dragStart := ⟨clientX, clientY⟩,
             startOffset := s.options.offset.getD ⟨0, 0⟩ }
  else
    { s with dragStart := ⟨clientX - s.transform.x, clientY - s.transform.y⟩ }

/-- handleMouseMove of Editor.tsx lines 229-273.  No-op unless a drag is in
progress.  Crop mode grows the selection to the axis-aligned box between
the anchor and the pointer; image mode sets the offset to the captured
offset plus the pointer delta divided by the viewport scale; view mode pans
the transform. -/
def handleMouseMove (s : EditorState) (clientX clientY rectLeft rectTop : ℚ) :
    EditorState :=
  if s.isDragging = false then s
  else if s.isCropping then
    let currentX := clientX - rectLeft
    let currentY := clientY - rectTop
    let startX := s.dragStart.x
    let startY := s.dragStart.y
    let selW := |currentX - startX|
    let selH := |currentY - startY|
    { s with cropSelection := some ⟨min startX currentX, min startY currentY, selW, selH⟩ }
  else if s.dragMode = DragMode.image then
    let dx := clientX - s.dragStart.x
    let dy := clientY - s.dragStart.y
    let canvasDx := dx / s.transform.scale
    let canvasDy := dy / s.transform.scale
    { s with options := { s.options with
        offset := some ⟨s.startOffset.x + canvasDx, s.startOffset.y + canvasDy⟩ } }
  else
    { s with transform := { s.transform with
        x := clientX - s.dragStart.x, y := clientY - s.dragStart.y } }

/-- The finalCrop computation inside handleMouseUp (Editor.tsx lines
279-289): inverse-map the screen selection through the viewport transform,
clamp x and y below by 0 after flooring, and clamp width and height by the
remaining image extent measured from the unfloored origin. -/
def cropFromSelection (s : EditorState) (sel : CropRect)
    (imageWidth imageHeight : ℚ) : CropRect :=
  let imgX := (sel.x - s.transform.x) / s.transform.scale
  let imgY := (sel.y - s.transform.y) / s.transform.scale
  let imgW := sel.width / s.transform.scale
  let imgH := sel.height / s.transform.scale
  { x := max 0 ((Int.floor imgX : ℤ) : ℚ)
    y := max 0 ((Int.floor imgY : ℤ) : ℚ)
    width := min (imageWidth - imgX) ((Int.floor imgW : ℤ) : ℚ)
    height := min (imageHeight - imgY) ((Int.floor imgH : ℤ) : ℚ) }

/-- handleMouseUp of Editor.tsx lines 275-304.  During a drag: a cropping
selection wider than 5 screen pixels is mapped to a source crop; when that
crop has positive width and height it is pushed to history together with
the matching width / height options and crop mode ends; otherwise, in image
drag mode, the current options are committed when changed.  Finally the
dragging flag always clears. -/
def handleMouseUp (s : EditorState) (imageWidth imageHeight : ℚ) : EditorState :=
  let s1 :=
    if s.isDragging then
      match s.cropSelection with
      | some sel =>
        if s.isCropping = true ∧ 5 < sel.width then
          let finalCrop := cropFromSelection s sel imageWidth imageHeight
          if 0 < finalCrop.width ∧ 0 < finalCrop.height then
            let newOptions := { s.options with
              crop := some finalCrop
              width := some finalCrop.width
              height := some finalCrop.height }
            let s2 := pushHistory s newOptions
            { s2 with isCropping := false, cropSelection := none }
          else s
        else if s.dragMode = DragMode.image then commitOptionChange s else s
      | none =>
        if s.dragMode = DragMode.image then commitOptionChange s else s
    else s
  { s1 with isDragging := false }

/-- The source rectangle resolution of the compositor
(src/services/image.worker.ts lines 40-43 and src/unnamed/part_004 lines
51-54): a caller-supplied crop is used exactly as given, and an absent crop
means the full source image. -/
def resolveSrcRect (crop : Option CropRect) (imgWidth imgHeight : ℚ) : CropRect :=
  match crop with
  | some c => ⟨c.x, c.y, c.width, c.height⟩
  | none => ⟨0, 0, imgWidth, imgHeight⟩

/-- A render rectangle: the destination arguments of the drawImage call. -/
structure RenderRect where
  x : ℚ
  y : ℚ
  w : ℚ
  h : ℚ
deriving DecidableEq, Repr

/-- The fit = cover branch of the compositor (image.worker.ts lines 67-82,
part_004 lines 79-94): compare the source and destination aspect ratios;
the wider source gets renderW = targetHeight * srcAspect with centering on
x, the taller one gets renderH = targetWidth / srcAspect with centering on
y; the user offset is added to both coordinates at the drawImage call. -/
def coverRenderRect (srcW srcH targetWidth targetHeight uOffX uOffY : ℚ) :
    RenderRect :=
  let srcAspect := srcW / srcH
  let dstAspect := targetWidth / targetHeight
  if dstAspect < srcAspect then
    let renderW := targetHeight * srcAspect
    let offsetX := (targetWidth - renderW) / 2
    ⟨offsetX + uOffX, 0 + uOffY, renderW, targetHeight⟩
  else
    let renderH := targetWidth / srcAspect
    let offsetY := (targetHeight - renderH) / 2
    ⟨0 + uOffX, offsetY + uOffY, targetWidth, renderH⟩

/-- Modelled from the spec (section 4.1, Cover): uniform scale is
max (targetW / srcRectW) (targetH / srcRectH), the render size is the
source rectangle times that scale, and the rectangle is centered on both
axes. -/
def coverPlacementSpec (srcW srcH targetWidth targetHeight : ℚ) : RenderRect :=
  let scale := max (targetWidth / srcW) (targetHeight / srcH)
  let renderW := srcW * scale
  let renderH := srcH * scale
  ⟨(targetWidth - renderW) / 2, (targetHeight - renderH) / 2, renderW, renderH⟩

/-- The arguments a codec receives from the encoder dispatch: the pixel
buffer (opaque here), the codec selected, and the native quality parameter
passed to it, when one is passed at all. -/
structure EncodeArgs (ImageData : Type) where
  data : ImageData
  codec : OutputFormat
  quality : Option ℚ
deriving DecidableEq, Repr

/-- The encoder dispatch switch (image.worker.ts lines 117-143, part_004
lines 127-147): jpeg and avif receive quality * 100, png receives no
quality argument, webp receives the quality unchanged. -/
def encodeDispatch {ImageData : Type} (imageData : ImageData)
    (format : OutputFormat) (quality : ℚ) : EncodeArgs ImageData :=
  match format with
  | OutputFormat.jpeg => ⟨imageData, OutputFormat.jpeg, some (quality * 100)⟩
  | OutputFormat.png => ⟨imageData, OutputFormat.png, none⟩
  | OutputFormat.webp => ⟨imageData, OutputFormat.webp, some quality⟩
  | OutputFormat.avif => ⟨imageData, OutputFormat.avif, some (quality * 100)⟩

/-- Modelled from the spec (section 4.3 table): the JavaScript Math.round,
that is floor (x + 1/2). -/
def jsRound (x : ℚ) : ℤ :=
  Int.floor (x + 1 / 2)

/-- The C2 scenario: 25 successive pushHistory calls of entries f 1 .. f 25
on the freshly seeded editor state. -/
def pushTwentyFive (f : ℕ → ProcessOptions) (orig : ProcessOptions) : EditorState :=
  (List.range 25).foldl (fun s i => pushHistory s (f (i + 1))) (initEditor orig)

/-- The C1 scenario: seed the session with orig, push A, push B, undo, set
the working options to C, then commit if changed. -/
def c1Run (orig A B C : ProcessOptions) : EditorState :=
  commitOptionChange
    (setOptions (handleUndo (pushHistory (pushHistory (initEditor orig) A) B)) C)

/-- A concrete state with a two-entry history and the index on the last
entry, used to exercise undo. -/
def exUndoState : EditorState :=
  { initEditor (mkOpts 0) with
    history := [mkOpts 0, mkOpts 1]
    historyIndex := 1
    options := mkOpts 1 }

/-- A concrete mid-drag cropping state whose screen selection is only 3
pixels wide, at viewport scale 1. -/
def c7State : EditorState :=
  { initEditor (mkOpts 0) with
    isDragging := true
    isCropping := true
    cropSelection := some ⟨0, 0, 3, 3⟩ }

/-- A concrete mid-drag move-image state. -/
def c8State : EditorState :=
  { initEditor (mkOpts 0) with
    dragMode := DragMode.image
    isDragging := true }

/-- A concrete mid-drag cropping state whose selection lies fully inside
the displayed image at scale 1 with no pan. -/
def c5WitState : EditorState :=
  { initEditor (mkOpts 0) with
    isDragging := true
    isCropping := true
    cropSelection := some ⟨10, 10, 20, 20⟩ }

/-- A concrete mid-drag cropping state panned 100 pixels to the right: the
selection starts left of the displayed image, so the inverse-mapped origin
is negative. -/
def c5CexState : EditorState :=
  { initEditor (mkOpts 0) with
    transform := ⟨100, 0, 1⟩
    isDragging := true
    isCropping := true
    cropSelection := some ⟨0, 0, 50, 50⟩ }

/- ----------------------------------------------------------------- -/
/- Theorems -/
/- ----------------------------------------------------------------- -/

/-- One pushHistory call from a state whose index sits on the last entry of
a nonempty history of length at most 20: the new entry is appended and the
oldest entry is evicted exactly when the history was full. -/
theorem pushHistory_step (s : EditorState) (o : ProcessOptions)
    (h1 : s.historyIndex = s.history.length - 1) (h2 : 0 < s.history.length)
    (h3 : s.history.length ≤ 20) :
    pushHistory s o =
      if s.history.length = 20 then
        { s with history := s.history.drop 1 ++ [o], historyIndex := 19, options := o }
      else
        { s with history := s.history ++ [o], historyIndex := s.history.length,
                 options := o } := by
  have htake : s.history.take (s.historyIndex + 1) = s.history := by
    rw [h1, Nat.sub_add_cancel h2, List.take_length]
  by_cases hfull : s.history.length = 20
  · rw [if_pos hfull]
    have hcond : 20 < (s.history ++ [o]).length := by simp [hfull]
    have hdrop : (s.history ++ [o]).drop 1 = s.history.drop 1 ++ [o] := by
      rw [List.drop_append_eq_append_drop]
      have h0 : 1 - s.history.length = 0 := by omega
      rw [h0, List.drop_zero]
    have hlen : ((s.history ++ [o]).drop 1).length - 1 = 19 := by
      simp [List.length_drop, hfull]
    simp only [pushHistory, htake, if_pos hcond]
    rw [hlen, hdrop]
  · rw [if_neg hfull]
    have hcond : ¬ 20 < (s.history ++ [o]).length := by simp; omega
    have hlen : (s.history ++ [o]).length - 1 = s.history.length := by simp
    simp only [pushHistory, htake, if_neg hcond]
    rw [hlen]

/-- Folding pushHistory over a list of new entries, from a state whose index
sits on the last entry of a nonempty history of length at most 20, keeps
exactly the trailing min 20 entries of the seeded history followed by the
pushed entries, and parks the index on the last entry. -/
theorem foldl_pushHistory (l : List ProcessOptions) :
    ∀ s : EditorState, s.historyIndex = s.history.length - 1 →
      0 < s.history.length → s.history.length ≤ 20 →
      (l.foldl pushHistory s).history =
          (s.history ++ l).drop (s.history.length + l.length - 20) ∧
        (l.foldl pushHistory s).history.length = min (s.history.length + l.length) 20 ∧
        (l.foldl pushHistory s).historyIndex = (l.foldl pushHistory s).history.length - 1 := by
  induction l with
  | nil =>
    intro s h1 h2 h3
    have hz : s.history.length + ([] : List ProcessOptions).length - 20 = 0 := by
      simp only [List.length_nil, Nat.add_zero]
      omega
    refine ⟨?_, ?_, by simpa using h1⟩
    · rw [hz, List.drop_zero, List.append_nil]
      rfl
    · simp only [List.foldl_nil, List.length_nil, Nat.add_zero]
      omega
  | cons o l ih =>
    intro s h1 h2 h3
    rw [List.foldl_cons, pushHistory_step s o h1 h2 h3]
    by_cases hfull : s.history.length = 20
    · rw [if_pos hfull]
      obtain ⟨e1, e2, e3⟩ := ih { s with history := s.history.drop 1 ++ [o], historyIndex := 19, options := o } (by simp [List.length_drop, hfull]) (by simp) (by simp [List.length_drop, hfull])
      dsimp only at e1 e2 e3
      refine ⟨?_, ?_, e3⟩
      · rw [e1]
        have hidx1 : (s.history.drop 1 ++ [o]).length + l.length - 20 = l.length := by
          simp only [List.length_append, List.length_drop, List.length_cons,
            List.length_nil, hfull]
          omega
        have hidx2 : s.history.length + (o :: l).length - 20 = l.length + 1 := by
          simp only [List.length_cons, hfull]
          omega
        rw [hidx1, hidx2]
        have hsplit : s.history ++ o :: l =
            s.history.take 1 ++ (s.history.drop 1 ++ o :: l) := by
          rw [← List.append_assoc, List.take_append_drop]
        rw [hsplit]
        have hlen1 : l.length + 1 = (s.history.take 1).length + l.length := by
          simp only [List.length_take]
          omega
        rw [hlen1, List.drop_append]
        rw [List.append_assoc, List.singleton_append]
      · rw [e2]
        simp only [List.length_append, List.length_drop, List.length_cons,
          List.length_nil, hfull]
        omega
    · rw [if_neg hfull]
      obtain ⟨e1, e2, e3⟩ := ih { s with history := s.history ++ [o], historyIndex := s.history.length, options := o } (by simp) (by simp) (by simp; omega)
      dsimp only at e1 e2 e3
      refine ⟨?_, ?_, e3⟩
      · rw [e1]
        have hidx : (s.history ++ [o]).length + l.length - 20 =
            s.history.length + (o :: l).length - 20 := by
          simp only [List.length_append, List.length_cons, List.length_nil]
          omega
        rw [hidx, List.append_assoc, List.singleton_append]
      · rw [e2]
        simp only [List.length_append, List.length_cons, List.length_nil]
        omega

/-- C2: starting from the seeded one-entry history, 25 successive push
calls leave exactly 20 entries, and the earliest surviving entry is the 6th
pushed one: the capacity bound evicts one oldest entry per push past 20. -/
theorem c2_capacity_twenty_five_pushes (f : ℕ → ProcessOptions) (orig : ProcessOptions) :
    (pushTwentyFive f orig).history.length = 20 ∧
      (pushTwentyFive f orig).history.head? = some (f 6) := by
  have hset : pushTwentyFive f orig =
      ((List.range 25).map (fun i => f (i + 1))).foldl pushHistory (initEditor orig) := by
    rw [List.foldl_map]
    rfl
  obtain ⟨e1, e2, e3⟩ := foldl_pushHistory ((List.range 25).map (fun i => f (i + 1)))
      (initEditor orig) (by simp [initEditor]) (by simp [initEditor])
      (by simp [initEditor])
  rw [hset]
  constructor
  · rw [e2]
    simp [initEditor]
  · rw [e1]
    simp only [initEditor, List.length_map, List.length_range, List.singleton_append,
      List.length_cons]
    rw [List.head?_drop]
    simp [List.getElem?_map, List.getElem?_range]

/-- C1 (amended): push A, push B, undo, commit C with C different from the
entry A at the current index: the history becomes [orig, A, C] with the
index on the last entry; the redo branch to B is discarded but the undone-to
entry A survives. -/
theorem c1_amended_undo_commit (orig A B C : ProcessOptions) (h : C ≠ A) :
    (c1Run orig A B C).history = [orig, A, C] ∧
      (c1Run orig A B C).historyIndex = 2 ∧
      (c1Run orig A B C).options = C := by
  have e4 : setOptions (handleUndo (pushHistory (pushHistory (initEditor orig) A) B)) C =
      { options := C, history := [orig, A, B], historyIndex := 1,
        transform := ⟨0, 0, 1⟩, isDragging := false, dragMode := DragMode.view,
        isCropping := false, cropSelection := none, dragStart := ⟨0, 0⟩,
        startOffset := ⟨0, 0⟩ } := rfl
  have hget : (([orig, A, B] : List ProcessOptions).get? 1) = some A := rfl
  unfold c1Run
  rw [e4]
  unfold commitOptionChange
  rw [if_pos]
  · exact ⟨rfl, rfl, rfl⟩
  · show (([orig, A, B] : List ProcessOptions).get? 1) ≠ some C
    rw [hget]
    simpa using Ne.symm h

/-- C1 witness: the amended scenario at concrete option values. -/
theorem c1_amended_undo_commit_witness :
    (c1Run (mkOpts 0) (mkOpts 1) (mkOpts 2) (mkOpts 3)).history =
        [mkOpts 0, mkOpts 1, mkOpts 3] ∧
      (c1Run (mkOpts 0) (mkOpts 1) (mkOpts 2) (mkOpts 3)).historyIndex = 2 ∧
      (c1Run (mkOpts 0) (mkOpts 1) (mkOpts 2) (mkOpts 3)).options = mkOpts 3 :=
  c1_amended_undo_commit (mkOpts 0) (mkOpts 1) (mkOpts 2) (mkOpts 3) (by decide)

/-- C1 counterexample: at concrete distinct option values the final history
is not [Original, C] as the claim states; the entry A remains between them. -/
theorem c1_counterexample :
    (c1Run (mkOpts 0) (mkOpts 1) (mkOpts 2) (mkOpts 3)).history ≠
      [mkOpts 0, mkOpts 3] := by decide

/-- C9: the PNG path of the encoder dispatch never reads the quality value:
the arguments handed to the PNG codec are identical for any two quality
values, hence any deterministic encoder produces identical output bytes. -/
theorem c9_png_ignores_quality {ImageData Bytes : Type}
    (encoder : EncodeArgs ImageData → Bytes) (d : ImageData) (q1 q2 : ℚ) :
    encodeDispatch d OutputFormat.png q1 = encodeDispatch d OutputFormat.png q2 ∧
      encoder (encodeDispatch d OutputFormat.png q1) =
        encoder (encodeDispatch d OutputFormat.png q2) :=
  ⟨rfl, rfl⟩

/-- C4 (amended): for quality q in [0, 1] the dispatch hands JPEG and AVIF
the value q * 100 with no rounding, WEBP receives q unchanged, and q = 0.8
with JPEG yields native quality exactly 80. -/
theorem c4_amended_quality_mapping {ImageData : Type} (d : ImageData) (q : ℚ)
    (h0 : 0 ≤ q) (h1 : q ≤ 1) :
    (encodeDispatch d OutputFormat.jpeg q).quality = some (q * 100) ∧
      (encodeDispatch d OutputFormat.avif q).quality = some (q * 100) ∧
      (encodeDispatch d OutputFormat.webp q).quality = some q ∧
      (encodeDispatch d OutputFormat.jpeg (4 / 5)).quality = some 80 := by
  refine ⟨rfl, rfl, rfl, ?_⟩
  show some ((4 / 5 : ℚ) * 100) = some 80
  norm_num

/-- C4 witness: the amended mapping at the concrete quality 0.8. -/
theorem c4_amended_quality_mapping_witness :
    (0 : ℚ) ≤ 4 / 5 ∧
      (encodeDispatch () OutputFormat.jpeg ((4 : ℚ) / 5)).quality = some ((4 / 5 : ℚ) * 100) :=
  ⟨by norm_num, (c4_amended_quality_mapping () ((4 : ℚ) / 5) (by norm_num) (by norm_num)).1⟩

/-- C10: undo and redo leave the history sequence itself unchanged; away
from the boundaries they move the index by exactly one and replace the
current options by the entry at the new index, and at the boundaries they
are complete no-ops. -/
theorem c10_undo_redo_frame (s : EditorState) :
    (handleUndo s).history = s.history ∧
      (handleRedo s).history = s.history ∧
      (s.historyIndex = 0 → handleUndo s = s) ∧
      (∀ o, 0 < s.historyIndex → s.history.get? (s.historyIndex - 1) = some o →
        handleUndo s = { s with historyIndex := s.historyIndex - 1, options := o }) ∧
      (¬ s.historyIndex < s.history.length - 1 → handleRedo s = s) ∧
      (∀ o, s.historyIndex < s.history.length - 1 →
        s.history.get? (s.historyIndex + 1) = some o →
        handleRedo s = { s with historyIndex := s.historyIndex + 1, options := o }) := by
  refine ⟨?_, ?_, ?_, ?_, ?_, ?_⟩
  · unfold handleUndo
    split
    · split <;> rfl
    · rfl
  · unfold handleRedo
    split
    · split <;> rfl
    · rfl
  · intro h
    unfold handleUndo
    rw [if_neg (by omega)]
  · intro o hpos hget
    unfold handleUndo
    rw [if_pos hpos, hget]
  · intro h
    unfold handleRedo
    rw [if_neg h]
  · intro o hlt hget
    unfold handleRedo
    rw [if_pos hlt, hget]

/-- C10 witness: undo at a concrete two-entry state with index 1 leaves the
history untouched, steps the index to 0 and loads the first entry. -/
theorem c10_undo_redo_frame_witness :
    (handleUndo exUndoState).history = exUndoState.history ∧
      handleUndo exUndoState =
        { exUndoState with historyIndex := 0, options := mkOpts 0 } := by
  obtain ⟨e1, -, -, e4, -, -⟩ := c10_undo_redo_frame exUndoState
  exact ⟨e1, e4 (mkOpts 0) (by decide) (by decide)⟩

/-- C6 (amended): over every sequence of zoom operations from a scale of at
least 0.1 (the initial scale is 1), the scale never falls below 0.1, and a
wheel zoom always lands in [0.1, 5]; the upper bound 5 does not hold for
the zoom-in button, which adds 0.1 without clamping. -/
theorem c6_amended_zoom_bounds (ops : List ZoomOp) (s : EditorState)
    (h : 1 / 10 ≤ s.transform.scale) :
    1 / 10 ≤ (ops.foldl applyZoom s).transform.scale ∧
      ∀ d : ℚ, 1 / 10 ≤ (handleWheel s d).transform.scale ∧
        (handleWheel s d).transform.scale ≤ 5 := by
  constructor
  · induction ops generalizing s with
    | nil => exact h
    | cons op ops ih =>
      rw [List.foldl_cons]
      apply ih
      cases op with
      | wheel d =>
        unfold applyZoom handleWheel
        dsimp only
        exact le_min (le_max_left _ _) (by norm_num)
      | zoomIn =>
        unfold applyZoom handleZoomIn
        dsimp only
        linarith
      | zoomOut =>
        unfold applyZoom handleZoomOut
        dsimp only
        exact le_max_left _ _
  · intro d
    unfold handleWheel
    dsimp only
    exact ⟨le_min (le_max_left _ _) (by norm_num), min_le_right _ _⟩

/-- C6 witness: one zoom-in press from the initial state keeps the scale at
or above 0.1. -/
theorem c6_amended_zoom_bounds_witness :
    (1 : ℚ) / 10 ≤
      (([ZoomOp.zoomIn].foldl applyZoom (initEditor (mkOpts 0))).transform.scale) :=
  (c6_amended_zoom_bounds [ZoomOp.zoomIn] (initEditor (mkOpts 0))
    (by show (1 : ℚ) / 10 ≤ 1; norm_num)).1

/-- Iterating the unclamped zoom-in button n times adds n / 10 to the
scale. -/
theorem zoomIn_replicate_scale (n : ℕ) :
    ∀ s : EditorState,
      ((List.replicate n ZoomOp.zoomIn).foldl applyZoom s).transform.scale =
        s.transform.scale + n / 10 := by
  induction n with
  | zero =>
    intro s
    simp
  | succ n ih =>
    intro s
    rw [List.replicate_succ, List.foldl_cons, ih]
    unfold applyZoom handleZoomIn
    dsimp only
    push_cast
    ring

/-- C6 counterexample: 41 presses of the zoom-in button, starting from the
initial scale 1, drive the viewport scale to 5.1, outside [0.1, 5]. -/
theorem c6_counterexample :
    ¬ (1 / 10 ≤ ((List.replicate 41 ZoomOp.zoomIn).foldl applyZoom
            (initEditor (mkOpts 0))).transform.scale ∧
        ((List.replicate 41 ZoomOp.zoomIn).foldl applyZoom
            (initEditor (mkOpts 0))).transform.scale ≤ 5) := by
  rw [zoomIn_replicate_scale 41 (initEditor (mkOpts 0))]
  rintro ⟨-, h2⟩
  norm_num [initEditor] at h2

/-- C7: a cropping drag whose screen selection is 3 pixels wide at scale 1
maps to a source width 3 < 5 and is discarded on pointer release: the
options, their crop and the history are all unchanged. -/
theorem c7_small_crop_discarded (s : EditorState) (sel : CropRect)
    (imageW imageH : ℚ)
    (hmode : s.dragMode = DragMode.view) (hcrop : s.isCropping = true)
    (hsel : s.cropSelection = some sel) (hw : sel.width = 3)
    (hscale : s.transform.scale = 1) :
    sel.width / s.transform.scale < 5 ∧
      (handleMouseUp s imageW imageH).options = s.options ∧
      (handleMouseUp s imageW imageH).options.crop = s.options.crop ∧
      (handleMouseUp s imageW imageH).history = s.history := by
  have hc : ¬ (s.isCropping = true ∧ 5 < sel.width) := by
    rintro ⟨-, hlt⟩
    rw [hw] at hlt
    norm_num at hlt
  have hm : ¬ (s.dragMode = DragMode.image) := by
    rw [hmode]
    intro hx
    cases hx
  have hstep : handleMouseUp s imageW imageH = { s with isDragging := false } := by
    by_cases hd : s.isDragging = true
    · simp only [handleMouseUp, hsel, hd, if_true, if_neg hc, if_neg hm]
    · simp only [handleMouseUp, hsel, if_neg hd]
  refine ⟨?_, ?_, ?_, ?_⟩
  · rw [hw, hscale]
    norm_num
  · rw [hstep]
  · rw [hstep]
  · rw [hstep]

/-- C7 witness: the discard behavior at a concrete 3-pixel-wide selection. -/
theorem c7_small_crop_discarded_witness :
    (⟨0, 0, 3, 3⟩ : CropRect).width / c7State.transform.scale < 5 ∧
      (handleMouseUp c7State 100 100).options = c7State.options ∧
      (handleMouseUp c7State 100 100).options.crop = c7State.options.crop ∧
      (handleMouseUp c7State 100 100).history = c7State.history :=
  c7_small_crop_discarded c7State ⟨0, 0, 3, 3⟩ 100 100 rfl rfl rfl rfl rfl

/-- C8: in move-image mode, pointer-down captures the raw pointer anchor
and the current offset (defaulting to (0,0)), every pointer-move during a
drag sets the offset to the captured offset plus the pointer delta divided
by the viewport scale, and pointer-up commits the options to history
exactly when they differ from the entry at the current index. -/
theorem c8_move_image_drag (s : EditorState)
    (clientX clientY rectLeft rectTop imageW imageH : ℚ)
    (hmode : s.dragMode = DragMode.image) (hcrop : s.isCropping = false) :
    (handleMouseDown s clientX clientY rectLeft rectTop).dragStart =
        ⟨clientX, clientY⟩ ∧
      (handleMouseDown s clientX clientY rectLeft rectTop).startOffset =
        s.options.offset.getD ⟨0, 0⟩ ∧
      (handleMouseDown s clientX clientY rectLeft rectTop).isDragging = true ∧
      (s.isDragging = true →
        (handleMouseMove s clientX clientY rectLeft rectTop).options.offset =
          some ⟨s.startOffset.x + (clientX - s.dragStart.x) / s.transform.scale,
                s.startOffset.y + (clientY - s.dragStart.y) / s.transform.scale⟩) ∧
      (s.isDragging = true →
        handleMouseUp s imageW imageH =
          { commitOptionChange s with isDragging := false }) ∧
      (s.history.get? s.historyIndex = some s.options → commitOptionChange s = s) ∧
      (s.history.get? s.historyIndex ≠ some s.options →
        commitOptionChange s = pushHistory s s.options) := by
  have hm : s.dragMode = DragMode.image := hmode
  refine ⟨?_, ?_, ?_, ?_, ?_, ?_, ?_⟩
  · simp only [handleMouseDown, hcrop, hm]
    rfl
  · simp only [handleMouseDown, hcrop, hm]
    rfl
  · simp only [handleMouseDown, hcrop, hm]
    rfl
  · intro hd
    simp only [handleMouseMove, hd, hcrop, hm]
    rfl
  · intro hd
    cases hcs : s.cropSelection with
    | none =>
      simp only [handleMouseUp, hcs, hd, hm]
      rfl
    | some sel =>
      have hnc : ¬ (s.isCropping = true ∧ 5 < sel.width) := by
        rintro ⟨hx, -⟩
        rw [hcrop] at hx
        cases hx
      simp only [handleMouseUp, hcs, hd, if_neg hnc, hm]
      rfl
  · intro hEq
    unfold commitOptionChange
    rw [if_neg (not_not_intro hEq)]
  · intro hNe
    unfold commitOptionChange
    rw [if_pos hNe]

/-- C8 witness: the drag equations at a concrete move-image state, where
the unchanged options are not re-committed. -/
theorem c8_move_image_drag_witness :
    (handleMouseDown c8State 10 20 1 2).dragStart = ⟨10, 20⟩ ∧
      (handleMouseMove c8State 10 20 1 2).options.offset =
        some ⟨c8State.startOffset.x + (10 - c8State.dragStart.x) / c8State.transform.scale,
              c8State.startOffset.y + (20 - c8State.dragStart.y) / c8State.transform.scale⟩ ∧
      commitOptionChange c8State = c8State := by
  obtain ⟨e1, -, -, e4, -, e6, -⟩ :=
    c8_move_image_drag c8State 10 20 1 2 100 100 rfl rfl
  exact ⟨e1, e4 rfl, e6 (by decide)⟩

/-- The crop-commit branch of handleMouseUp: during a cropping drag whose
selection is wider than 5 screen pixels and maps to a crop of positive size,
pointer release pushes the options extended with that crop (and with the
crop size as the new target size) and leaves crop mode. -/
theorem handleMouseUp_crop_commit (s : EditorState) (sel : CropRect)
    (imageW imageH : ℚ)
    (hdrag : s.isDragging = true) (hcrop : s.isCropping = true)
    (hsel : s.cropSelection = some sel) (hw : 5 < sel.width)
    (hposW : 0 < (cropFromSelection s sel imageW imageH).width)
    (hposH : 0 < (cropFromSelection s sel imageW imageH).height) :
    handleMouseUp s imageW imageH =
      { pushHistory s { s.options with crop := some (cropFromSelection s sel imageW imageH), width := some (cropFromSelection s sel imageW imageH).width, height := some (cropFromSelection s sel imageW imageH).height } with isCropping := false, cropSelection := none, isDragging := false } := by
  simp only [handleMouseUp, hsel, hdrag, if_true, if_pos (And.intro hcrop hw),
    if_pos (And.intro hposW hposH)]

/-- C5 (amended): the crop committed on pointer release always has
nonnegative x and y and positive width and height (the commit is guarded on
positivity); its right and bottom edges stay inside the source only when
the inverse-mapped selection origin is itself nonnegative, and the
compositor uses a caller-supplied crop exactly as given, without any
clamping. -/
theorem c5_amended_crop_clamp (s : EditorState) (sel : CropRect)
    (imageW imageH : ℚ)
    (hdrag : s.isDragging = true) (hcrop : s.isCropping = true)
    (hsel : s.cropSelection = some sel) (hw : 5 < sel.width)
    (hposW : 0 < (cropFromSelection s sel imageW imageH).width)
    (hposH : 0 < (cropFromSelection s sel imageW imageH).height) :
    (handleMouseUp s imageW imageH).options.crop =
        some (cropFromSelection s sel imageW imageH) ∧
      0 ≤ (cropFromSelection s sel imageW imageH).x ∧
      0 ≤ (cropFromSelection s sel imageW imageH).y ∧
      (0 ≤ (sel.x - s.transform.x) / s.transform.scale →
        (cropFromSelection s sel imageW imageH).x +
            (cropFromSelection s sel imageW imageH).width ≤ imageW) ∧
      (0 ≤ (sel.y - s.transform.y) / s.transform.scale →
        (cropFromSelection s sel imageW imageH).y +
            (cropFromSelection s sel imageW imageH).height ≤ imageH) ∧
      (∀ c : CropRect, resolveSrcRect (some c) imageW imageH = c) := by
  refine ⟨?_, ?_, ?_, ?_, ?_, fun c => rfl⟩
  · rw [handleMouseUp_crop_commit s sel imageW imageH hdrag hcrop hsel hw hposW hposH]
    rfl
  · exact le_max_left _ _
  · exact le_max_left _ _
  · intro h0
    have hfl : ((Int.floor ((sel.x - s.transform.x) / s.transform.scale) : ℤ) : ℚ) ≤
        (sel.x - s.transform.x) / s.transform.scale := Int.floor_le _
    have hfn : (0 : ℚ) ≤
        ((Int.floor ((sel.x - s.transform.x) / s.transform.scale) : ℤ) : ℚ) := by
      exact_mod_cast Int.floor_nonneg.mpr h0
    have hxv : (cropFromSelection s sel imageW imageH).x =
        ((Int.floor ((sel.x - s.transform.x) / s.transform.scale) : ℤ) : ℚ) := by
      simp only [cropFromSelection]
      exact max_eq_right hfn
    have hwv : (cropFromSelection s sel imageW imageH).width ≤
        imageW - (sel.x - s.transform.x) / s.transform.scale := by
      simp only [cropFromSelection]
      exact min_le_left _ _
    rw [hxv]
    linarith
  · intro h0
    have hfl : ((Int.floor ((sel.y - s.transform.y) / s.transform.scale) : ℤ) : ℚ) ≤
        (sel.y - s.transform.y) / s.transform.scale := Int.floor_le _
    have hfn : (0 : ℚ) ≤
        ((Int.floor ((sel.y - s.transform.y) / s.transform.scale) : ℤ) : ℚ) := by
      exact_mod_cast Int.floor_nonneg.mpr h0
    have hyv : (cropFromSelection s sel imageW imageH).y =
        ((Int.floor ((sel.y - s.transform.y) / s.transform.scale) : ℤ) : ℚ) := by
      simp only [cropFromSelection]
      exact max_eq_right hfn
    have hhv : (cropFromSelection s sel imageW imageH).height ≤
        imageH - (sel.y - s.transform.y) / s.transform.scale := by
      simp only [cropFromSelection]
      exact min_le_left _ _
    rw [hyv]
    linarith

/-- C5 witness: the amended bounds at a concrete fully-inside selection. -/
theorem c5_amended_crop_clamp_witness :
    (handleMouseUp c5WitState 100 100).options.crop =
        some (cropFromSelection c5WitState ⟨10, 10, 20, 20⟩ 100 100) ∧
      0 ≤ (cropFromSelection c5WitState ⟨10, 10, 20, 20⟩ 100 100).x := by
  have hcw : 0 < (cropFromSelection c5WitState ⟨10, 10, 20, 20⟩ 100 100).width := by
    norm_num [cropFromSelection, c5WitState, initEditor]
  have hch : 0 < (cropFromSelection c5WitState ⟨10, 10, 20, 20⟩ 100 100).height := by
    norm_num [cropFromSelection, c5WitState, initEditor]
  obtain ⟨e1, e2, -⟩ := c5_amended_crop_clamp c5WitState ⟨10, 10, 20, 20⟩ 100 100
    rfl rfl rfl (by norm_num) hcw hch
  exact ⟨e1, e2⟩

/-- C5 counterexample: with the viewport panned 100 pixels right over a
40 by 40 source, a committed 50-pixel-wide selection yields the crop
(0, 0, 50, 40), whose right edge 0 + 50 exceeds the source width 40; the
compositor then uses that out-of-bounds crop exactly as given. -/
theorem c5_counterexample :
    (handleMouseUp c5CexState 40 40).options.crop =
        some (⟨0, 0, 50, 40⟩ : CropRect) ∧
      ¬ ((0 : ℚ) + 50 ≤ 40) ∧
      resolveSrcRect (some ⟨0, 0, 50, 40⟩) 40 40 = (⟨0, 0, 50, 40⟩ : CropRect) := by
  have hc : cropFromSelection c5CexState ⟨0, 0, 50, 50⟩ 40 40 =
      (⟨0, 0, 50, 40⟩ : CropRect) := by
    unfold cropFromSelection c5CexState initEditor
    norm_num
  refine ⟨?_, by norm_num, rfl⟩
  rw [handleMouseUp_crop_commit c5CexState ⟨0, 0, 50, 50⟩ 40 40 rfl rfl rfl
    (by norm_num) (by rw [hc]; norm_num) (by rw [hc]; norm_num), hc]
  rfl

/-- C3: for positive source rectangle and target sizes with offset (0,0),
the cover branch of processImage computes exactly the placement of the
spec formula (uniform scale max(targetW/srcW, targetH/srcH), render size
source times scale, centered on both axes), and that rectangle covers the
whole target canvas with no gaps. -/
theorem c3_cover_placement (srcW srcH targetW targetH : ℚ)
    (hsw : 0 < srcW) (hsh : 0 < srcH) (htw : 0 < targetW) (hth : 0 < targetH) :
    coverRenderRect srcW srcH targetW targetH 0 0 =
        coverPlacementSpec srcW srcH targetW targetH ∧
      (coverRenderRect srcW srcH targetW targetH 0 0).x ≤ 0 ∧
      (coverRenderRect srcW srcH targetW targetH 0 0).y ≤ 0 ∧
      targetW ≤ (coverRenderRect srcW srcH targetW targetH 0 0).x +
        (coverRenderRect srcW srcH targetW targetH 0 0).w ∧
      targetH ≤ (coverRenderRect srcW srcH targetW targetH 0 0).y +
        (coverRenderRect srcW srcH targetW targetH 0 0).h := by
  simp only [coverRenderRect, coverPlacementSpec]
  by_cases hcase : targetW / targetH < srcW / srcH
  · rw [if_pos hcase]
    have hkey : targetW * srcH < srcW * targetH := (div_lt_div_iff₀ hth hsh).mp hcase
    have hmax : max (targetW / srcW) (targetH / srcH) = targetH / srcH := by
      apply max_eq_right
      rw [div_le_div_iff₀ hsw hsh]
      nlinarith
    have hw1 : targetH * (srcW / srcH) = srcW * (targetH / srcH) := by
      field_simp
      ring
    have hh1 : srcH * (targetH / srcH) = targetH := by
      field_simp
    have hge : targetW ≤ targetH * (srcW / srcH) := by
      rw [hw1, ← mul_div_assoc, le_div_iff₀ hsh]
      nlinarith
    rw [hmax]
    dsimp only
    refine ⟨?_, by linarith, by norm_num, by linarith, by linarith⟩
    simp only [RenderRect.mk.injEq]
    refine ⟨by rw [hw1, add_zero], by rw [hh1]; norm_num, hw1, hh1.symm⟩
  · rw [if_neg hcase]
    have hkey : srcW * targetH ≤ targetW * srcH :=
      (div_le_div_iff₀ hsh hth).mp (not_lt.mp hcase)
    have hmax : max (targetW / srcW) (targetH / srcH) = targetW / srcW := by
      apply max_eq_left
      rw [div_le_div_iff₀ hsh hsw]
      nlinarith
    have hw2 : srcW * (targetW / srcW) = targetW := by
      field_simp
    have hh2 : targetW / (srcW / srcH) = srcH * (targetW / srcW) := by
      field_simp
      ring
    have hge : targetH ≤ targetW / (srcW / srcH) := by
      rw [hh2, ← mul_div_assoc, le_div_iff₀ hsw]
      nlinarith
    rw [hmax]
    dsimp only
    refine ⟨?_, by norm_num, by linarith, by linarith, by linarith⟩
    simp only [RenderRect.mk.injEq]
    refine ⟨by rw [hw2]; norm_num, by rw [hh2, add_zero], hw2.symm, hh2⟩

/-- C3 witness: the cover placement at the spec scenario, a 500 by 500 crop
into a 200 by 200 target: the render rectangle is exactly the full canvas. -/
theorem c3_cover_placement_witness :
    coverRenderRect 500 500 200 200 0 0 = coverPlacementSpec 500 500 200 200 ∧
      (coverRenderRect 500 500 200 200 0 0).x ≤ 0 ∧
      (coverRenderRect 500 500 200 200 0 0).y ≤ 0 ∧
      (200 : ℚ) ≤ (coverRenderRect 500 500 200 200 0 0).x +
        (coverRenderRect 500 500 200 200 0 0).w ∧
      (200 : ℚ) ≤ (coverRenderRect 500 500 200 200 0 0).y +
        (coverRenderRect 500 500 200 200 0 0).h :=
  c3_cover_placement 500 500 200 200 (by norm_num) (by norm_num) (by norm_num)
    (by norm_num)
theorem c4_counterexample :
    (encodeDispatch () OutputFormat.jpeg ((1 : ℚ) / 8)).quality = some (25 / 2) ∧
      ((25 / 2 : ℚ) ≠ ((jsRound ((1 / 8 : ℚ) * 100) : ℤ) : ℚ)) := by
  constructor
  · show some ((1 / 8 : ℚ) * 100) = some (25 / 2)
    norm_num
  · have h13 : jsRound ((1 / 8 : ℚ) * 100) = 13 := by
      unfold jsRound
      have : ((1 / 8 : ℚ) * 100 + 1 / 2) = ((13 : ℤ) : ℚ) := by norm_num
      rw [this, Int.floor_intCast]
    rw [h13]
    norm_num

end ImageStudio
